import Mathlib

/-!
Shallow embedding of `src/root/utils.py`: the Root board-game statistics
module.  Players and games are immutable records; the aggregation layer
turns a list of games into per-name and per-faction counts and win rates.

Modelling conventions:
  * `NameType` and `FactionType` are modelled as `String` (the Python
    source uses `Literal` string unions; membership in the roster is a
    construction-time concern outside the aggregation logic).
  * `date` is abstract for the aggregations, modelled as `Nat`.
  * Python's fallible `next(...)` in `Game.winner` (which raises
    `StopIteration` when no player is flagged as winner) is modelled with
    `Option`: `none` is the "missing winner" failure.  Any computation
    that evaluates `winner` on a winnerless game therefore returns `none`
    (no partial results), mirroring the exception propagating out.
  * Python dictionaries built by `{k: v for k in keys}` comprehensions are
    modelled as association lists in comprehension order; `List.lookup`
    is dictionary indexing.
  * Python `float` division of the two counts is modelled as exact
    division in `ℚ`.  The `ZeroDivisionError` branch is structurally
    unreachable (every key of the count maps occurs in at least one game,
    proved below), so plain `ℚ` division agrees with the source on every
    reachable input.
-/

structure Player where
  name : String
  faction : String
  is_winner : Bool
deriving DecidableEq, Repr

structure Game where
  game_date : Nat
  players : List Player
deriving DecidableEq, Repr

/-- `Game.names`: the list of player names, in player order. -/
def Game.names (g : Game) : List String :=
  g.players.map (fun p => p.name)

/-- `Game.factions`: the list of played factions, in player order. -/
def Game.factions (g : Game) : List String :=
  g.players.map (fun p => p.faction)

/-- `Game.winner`: `next(player for player in self.players if player.is_winner)`;
`none` models the `StopIteration` raised when no player is flagged. -/
def Game.winner (g : Game) : Option Player :=
  g.players.find? (fun p => p.is_winner)

/-- `Game.looser`: all players not flagged as winner, in original order. -/
def Game.looser (g : Game) : List Player :=
  g.players.filter (fun p => !p.is_winner)

/-- `Game.winner_name`: name of the winning player (fails when `winner` does). -/
def Game.winner_name (g : Game) : Option String :=
  g.winner.map (fun p => p.name)

/-- `Game.looser_name`: names of the non-winning players. -/
def Game.looser_name (g : Game) : List String :=
  g.looser.map (fun p => p.name)

/-- `Game.winner_faction`: faction of the winning player (fails when `winner` does). -/
def Game.winner_faction (g : Game) : Option String :=
  g.winner.map (fun p => p.faction)

/-- `Game.looser_faction`: factions of the non-winning players. -/
def Game.looser_faction (g : Game) : List String :=
  g.looser.map (fun p => p.faction)

/-- All player records across a game list, in order of appearance
(`for game in games for player in game.players`). -/
def allPlayers (games : List Game) : List Player :=
  (games.map (fun g => g.players)).flatten

/-- `get_names`: `list({player.name for game in games for player in game.players})`.
The Python set is materialized as a duplicate-free list (set iteration
order is unspecified in Python; we fix one concrete order). -/
def get_names (games : List Game) : List String :=
  ((allPlayers games).map (fun p => p.name)).dedup

/-- `get_factions`: `list({player.faction for game in games for player in game.players})`. -/
def get_factions (games : List Game) : List String :=
  ((allPlayers games).map (fun p => p.faction)).dedup

/-- `get_num_wins`: `sum(1 for game in games if game.winner_name == name)`.
Evaluating `winner_name` on every game, the whole sum fails (`none`) as
soon as any game in the list has no winner. -/
def get_num_wins (games : List Game) (name : String) : Option Nat :=
  (games.mapM Game.winner_name).map
    (fun ws => (ws.filter (fun w => w == name)).length)

/-- `get_name_game_count_dict`:
`{name: sum(1 for game in games if name in game.names) for name in get_names(games)}`. -/
def get_name_game_count_dict (games : List Game) : List (String × Nat) :=
  (get_names games).map
    (fun name => (name, (games.filter (fun g => g.names.contains name)).length))

/-- `get_faction_game_count_dict`:
`{faction: sum(1 for game in games if faction in game.factions) for faction in get_factions(games)}`. -/
def get_faction_game_count_dict (games : List Game) : List (String × Nat) :=
  (get_factions games).map
    (fun fac => (fac, (games.filter (fun g => g.factions.contains fac)).length))

/-- `get_name_win_count_dict`:
`{name: get_num_wins(games, name) for name in get_names(games)}`.
Fails iff some `get_num_wins` call fails (the comprehension body is never
executed when `get_names` is empty, so the empty list always succeeds). -/
def get_name_win_count_dict (games : List Game) : Option (List (String × Nat)) :=
  (get_names games).mapM
    (fun name => (get_num_wins games name).map (fun w => (name, w)))

/-- `get_faction_win_count_dict`:
`{faction: sum(1 for game in games if game.winner_faction == faction) for faction in get_factions(games)}`. -/
def get_faction_win_count_dict (games : List Game) : Option (List (String × Nat)) :=
  (get_factions games).mapM
    (fun fac => (games.mapM Game.winner_faction).map
      (fun ws => (fac, (ws.filter (fun w => w == fac)).length)))

/-- Dictionary indexing `d[k]` with the (provably unreachable here)
`KeyError` branch collapsed to `0`. -/
def dget (d : List (String × Nat)) (k : String) : Nat :=
  (d.lookup k).getD 0

/-- `get_relative_name_win_count_dict`: builds the win-count and
game-count dicts, then maps each distinct name to
`name_win_count_dict[name] / name_game_count_dict[name]`.  The two
`assert all(... in ....keys())` lines of the source always pass (the key
sets are `get_names(games)` by construction) and are not modelled as a
failure mode. -/
def get_relative_name_win_count_dict (games : List Game) :
    Option (List (String × ℚ)) :=
  match get_name_win_count_dict games with
  | none => none
  | some wd =>
      some ((get_names games).map
        (fun name =>
          (name, (dget wd name : ℚ) / (dget (get_name_game_count_dict games) name : ℚ))))

/-- `get_relative_faction_win_count_dict`: analogous for factions. -/
def get_relative_faction_win_count_dict (games : List Game) :
    Option (List (String × ℚ)) :=
  match get_faction_win_count_dict games with
  | none => none
  | some wd =>
      some ((get_factions games).map
        (fun fac =>
          (fac, (dget wd fac : ℚ) / (dget (get_faction_game_count_dict games) fac : ℚ))))

/-! ### Helper lemmas -/

/-- Indexing an association list built by a comprehension over `keys`. -/
theorem lookup_map_self {β : Type} (keys : List String) (f : String → β)
    (k : String) :
    (keys.map (fun a => (a, f a))).lookup k
      = if k ∈ keys then some (f k) else none := by
  induction keys with
  | nil => simp
  | cons a rest ih =>
      by_cases hk : k = a
      · subst hk
        simp [List.lookup_cons]
      · have hne : (k == a) = false := by
          simp [hk]
        simp [List.lookup_cons, hne, hk, ih]

/-- Membership in `get_names`. -/
theorem mem_get_names (games : List Game) (x : String) :
    x ∈ get_names games ↔ ∃ g ∈ games, ∃ p ∈ g.players, p.name = x := by
  simp only [get_names, allPlayers, List.mem_dedup, List.mem_map,
    List.mem_flatten]
  constructor
  · rintro ⟨p, ⟨l, ⟨g, hg, rfl⟩, hp⟩, rfl⟩
    exact ⟨g, hg, p, hp, rfl⟩
  · rintro ⟨g, hg, p, hp, rfl⟩
    exact ⟨p, ⟨g.players, ⟨g, hg, rfl⟩, hp⟩, rfl⟩

/-- Membership in `get_factions`. -/
theorem mem_get_factions (games : List Game) (x : String) :
    x ∈ get_factions games ↔ ∃ g ∈ games, ∃ p ∈ g.players, p.faction = x := by
  simp only [get_factions, allPlayers, List.mem_dedup, List.mem_map,
    List.mem_flatten]
  constructor
  · rintro ⟨p, ⟨l, ⟨g, hg, rfl⟩, hp⟩, rfl⟩
    exact ⟨g, hg, p, hp, rfl⟩
  · rintro ⟨g, hg, p, hp, rfl⟩
    exact ⟨p, ⟨g.players, ⟨g, hg, rfl⟩, hp⟩, rfl⟩

/-- `name in game.names` as a proposition. -/
theorem contains_names_iff (g : Game) (x : String) :
    g.names.contains x = true ↔ ∃ p ∈ g.players, p.name = x := by
  simp [List.contains, Game.names]

/-- `faction in game.factions` as a proposition. -/
theorem contains_factions_iff (g : Game) (x : String) :
    g.factions.contains x = true ↔ ∃ p ∈ g.players, p.faction = x := by
  simp [List.contains, Game.factions]

/-- Success of `mapM` over `Option`, element by element. -/
theorem mapM_option_eq_some {α β : Type} (f : α → Option β) :
    ∀ (l : List α) (ws : List β),
      l.mapM f = some ws ↔ List.Forall₂ (fun a b => f a = some b) l ws := by
  intro l
  induction l with
  | nil =>
      intro ws
      rw [List.mapM_nil]
      constructor
      · intro h
        have hws : ws = [] := by
          have : ([] : List β) = ws := Option.some.inj h
          exact this.symm
        subst hws
        exact List.Forall₂.nil
      · rintro h; cases h; rfl
  | cons a rest ih =>
      intro ws
      rw [List.mapM_cons]
      constructor
      · intro h
        cases hfa : f a with
        | none => rw [hfa] at h; simp at h
        | some b =>
            rw [hfa] at h
            cases hrest : rest.mapM f with
            | none => rw [hrest] at h; simp at h
            | some bs =>
                rw [hrest] at h
                simp at h
                subst h
                exact List.Forall₂.cons hfa ((ih bs).mp hrest)
      · intro h
        cases h with
        | cons hab hrest =>
            rw [hab, (ih _).mpr hrest]
            rfl

/-- `mapM` over `Option` fails exactly when some element fails. -/
theorem mapM_option_eq_none {α β : Type} (f : α → Option β) :
    ∀ (l : List α), l.mapM f = none ↔ ∃ a ∈ l, f a = none := by
  intro l
  induction l with
  | nil =>
      rw [List.mapM_nil]
      simp
  | cons a rest ih =>
      rw [List.mapM_cons]
      cases hfa : f a with
      | none => simp [hfa]
      | some b =>
          cases hrest : rest.mapM f with
          | none =>
              simp only [hrest, ih] at *
              simp [hfa]
              exact ih.mp hrest
          | some bs =>
              simp [hfa, hrest]
              intro x hx hnone
              have : ∃ a ∈ rest, f a = none := ⟨x, hx, hnone⟩
              rw [← ih] at this
              rw [hrest] at this
              cases this

/-- `mapM` over `Option` of a function that succeeds everywhere on `l`. -/
theorem mapM_option_total {α β : Type} (f : α → Option β) (g : α → β) :
    ∀ (l : List α), (∀ a ∈ l, f a = some (g a)) → l.mapM f = some (l.map g) := by
  intro l
  induction l with
  | nil => intro _; rw [List.mapM_nil]; rfl
  | cons a rest ih =>
      intro h
      rw [List.mapM_cons, h a (by simp), ih (fun x hx => h x (by simp [hx]))]
      rfl

/-- Counting hits in the successful output of a `mapM` equals counting the
games whose accessor returns that value. -/
theorem forall2_filter_count {α : Type} (f : α → Option String) :
    ∀ {l : List α} {ws : List String},
      List.Forall₂ (fun a b => f a = some b) l ws →
      ∀ x, (ws.filter (fun w => w == x)).length
        = l.countP (fun a => decide (f a = some x)) := by
  intro l ws h
  induction h with
  | nil => intro x; simp
  | cons hab _ ih =>
      intro x
      rename_i a b l' ws' _
      by_cases hbx : b = x
      · subst hbx
        simp [List.filter_cons, List.countP_cons, hab, ih]
      · have h1 : (b == x) = false := by simp [hbx]
        have h2 : ¬f a = some x := by
          rw [hab]; simp [hbx]
        simp [List.filter_cons, List.countP_cons, h1, h2, ih]

/-- Closed form of `get_num_wins` when every game has a winner. -/
theorem get_num_wins_eq (games : List Game) (name : String) (ws : List String)
    (h : games.mapM Game.winner_name = some ws) :
    get_num_wins games name
      = some (games.countP (fun g => decide (g.winner_name = some name))) := by
  unfold get_num_wins
  rw [h]
  have h2 := forall2_filter_count Game.winner_name
    ((mapM_option_eq_some Game.winner_name games ws).mp h) name
  simp [h2]

/-- Closed form of `get_name_win_count_dict` when every game has a winner. -/
theorem name_win_dict_eq (games : List Game) (ws : List String)
    (h : games.mapM Game.winner_name = some ws) :
    get_name_win_count_dict games
      = some ((get_names games).map
          (fun n => (n, games.countP (fun g => decide (g.winner_name = some n))))) := by
  unfold get_name_win_count_dict
  exact mapM_option_total _ _ _
    (fun n _ => by rw [get_num_wins_eq games n ws h]; rfl)

/-- Closed form of `get_faction_win_count_dict` when every game has a winner. -/
theorem faction_win_dict_eq (games : List Game) (ws : List String)
    (h : games.mapM Game.winner_faction = some ws) :
    get_faction_win_count_dict games
      = some ((get_factions games).map
          (fun c => (c, games.countP (fun g => decide (g.winner_faction = some c))))) := by
  unfold get_faction_win_count_dict
  refine mapM_option_total _ _ _ (fun c _ => ?_)
  rw [h]
  have h2 := forall2_filter_count Game.winner_faction
    ((mapM_option_eq_some Game.winner_faction games ws).mp h) c
  simp [h2]

/-- `get_name_win_count_dict` fails iff there is a distinct name at all and
some game has no winner. -/
theorem name_win_dict_none_iff (games : List Game) :
    get_name_win_count_dict games = none
      ↔ get_names games ≠ [] ∧ games.mapM Game.winner_name = none := by
  unfold get_name_win_count_dict
  rw [mapM_option_eq_none]
  constructor
  · rintro ⟨n, hn, hnone⟩
    refine ⟨fun hnil => ?_, ?_⟩
    · rw [hnil] at hn; cases hn
    · unfold get_num_wins at hnone
      cases hmw : games.mapM Game.winner_name with
      | none => rfl
      | some ws => rw [hmw] at hnone; simp at hnone
  · rintro ⟨hne, hmw⟩
    cases hnames : get_names games with
    | nil => exact absurd hnames hne
    | cons n rest =>
        refine ⟨n, by simp, ?_⟩
        unfold get_num_wins
        rw [hmw]
        rfl

/-- `get_faction_win_count_dict` fails iff there is a distinct faction at
all and some game has no winner. -/
theorem faction_win_dict_none_iff (games : List Game) :
    get_faction_win_count_dict games = none
      ↔ get_factions games ≠ [] ∧ games.mapM Game.winner_faction = none := by
  unfold get_faction_win_count_dict
  rw [mapM_option_eq_none]
  constructor
  · rintro ⟨c, hc, hnone⟩
    refine ⟨fun hnil => ?_, ?_⟩
    · rw [hnil] at hc; cases hc
    · cases hmw : games.mapM Game.winner_faction with
      | none => rfl
      | some ws => rw [hmw] at hnone; simp at hnone
  · rintro ⟨hne, hmw⟩
    cases hfacs : get_factions games with
    | nil => exact absurd hfacs hne
    | cons c rest =>
        refine ⟨c, by simp, ?_⟩
        rw [hmw]
        rfl

/-- Closed form of lookups into the name game-count dictionary. -/
theorem name_count_lookup (games : List Game) (k : String) :
    (get_name_game_count_dict games).lookup k
      = if k ∈ get_names games
        then some (games.countP (fun g => g.names.contains k)) else none := by
  unfold get_name_game_count_dict
  rw [lookup_map_self]
  rw [List.countP_eq_length_filter]

/-- Closed form of lookups into the faction game-count dictionary. -/
theorem faction_count_lookup (games : List Game) (k : String) :
    (get_faction_game_count_dict games).lookup k
      = if k ∈ get_factions games
        then some (games.countP (fun g => g.factions.contains k)) else none := by
  unfold get_faction_game_count_dict
  rw [lookup_map_self]
  rw [List.countP_eq_length_filter]

/-- The winner's name occurs in `game.names`. -/
theorem winner_name_contains (g : Game) (n : String)
    (h : g.winner_name = some n) : g.names.contains n = true := by
  unfold Game.winner_name Game.winner at h
  cases hf : g.players.find? (fun p => p.is_winner) with
  | none => rw [hf] at h; simp at h
  | some p =>
      rw [hf] at h
      have hpn : p.name = n := by simpa using h
      have hp : p ∈ g.players := List.mem_of_find?_eq_some hf
      rw [contains_names_iff]
      exact ⟨p, hp, hpn⟩

/-- The winner's faction occurs in `game.factions`. -/
theorem winner_faction_contains (g : Game) (c : String)
    (h : g.winner_faction = some c) : g.factions.contains c = true := by
  unfold Game.winner_faction Game.winner at h
  cases hf : g.players.find? (fun p => p.is_winner) with
  | none => rw [hf] at h; simp at h
  | some p =>
      rw [hf] at h
      have hpc : p.faction = c := by simpa using h
      have hp : p ∈ g.players := List.mem_of_find?_eq_some hf
      rw [contains_factions_iff]
      exact ⟨p, hp, hpc⟩

/-- Wins are a subcount of games played, per name. -/
theorem wins_le_games_name (games : List Game) (k : String) :
    games.countP (fun g => decide (g.winner_name = some k))
      ≤ games.countP (fun g => g.names.contains k) := by
  refine List.countP_mono_left (fun g _ hg => ?_)
  exact winner_name_contains g k (of_decide_eq_true hg)

/-- Wins are a subcount of games played, per faction. -/
theorem wins_le_games_faction (games : List Game) (k : String) :
    games.countP (fun g => decide (g.winner_faction = some k))
      ≤ games.countP (fun g => g.factions.contains k) := by
  refine List.countP_mono_left (fun g _ hg => ?_)
  exact winner_faction_contains g k (of_decide_eq_true hg)

/-- Every distinct name occurs in at least one game. -/
theorem name_count_pos (games : List Game) (k : String)
    (h : k ∈ get_names games) :
    0 < games.countP (fun g => g.names.contains k) := by
  rw [List.countP_pos_iff]
  obtain ⟨g, hg, p, hp, hpk⟩ := (mem_get_names games k).mp h
  exact ⟨g, hg, (contains_names_iff g k).mpr ⟨p, hp, hpk⟩⟩

/-- Every distinct faction occurs in at least one game. -/
theorem faction_count_pos (games : List Game) (k : String)
    (h : k ∈ get_factions games) :
    0 < games.countP (fun g => g.factions.contains k) := by
  rw [List.countP_pos_iff]
  obtain ⟨g, hg, p, hp, hpk⟩ := (mem_get_factions games k).mp h
  exact ⟨g, hg, (contains_factions_iff g k).mpr ⟨p, hp, hpk⟩⟩

/-- The name win-rate map fails exactly when the win-count map does. -/
theorem rate_name_none_iff (games : List Game) :
    get_relative_name_win_count_dict games = none
      ↔ get_name_win_count_dict games = none := by
  unfold get_relative_name_win_count_dict
  cases h : get_name_win_count_dict games <;> simp

/-- The faction win-rate map fails exactly when the win-count map does. -/
theorem rate_faction_none_iff (games : List Game) :
    get_relative_faction_win_count_dict games = none
      ↔ get_faction_win_count_dict games = none := by
  unfold get_relative_faction_win_count_dict
  cases h : get_faction_win_count_dict games <;> simp

/-- Closed form of the name win-rate map when every game has a winner. -/
theorem rate_name_eq (games : List Game) (ws : List String)
    (h : games.mapM Game.winner_name = some ws) :
    get_relative_name_win_count_dict games
      = some ((get_names games).map
          (fun n => (n,
            ((games.countP (fun g => decide (g.winner_name = some n)) : ℚ)
              / (games.countP (fun g => g.names.contains n) : ℚ))))) := by
  unfold get_relative_name_win_count_dict
  rw [name_win_dict_eq games ws h]
  refine congrArg some (List.map_congr_left (fun n hn => ?_))
  have hw : dget ((get_names games).map
      (fun m => (m, games.countP (fun g => decide (g.winner_name = some m))))) n
      = games.countP (fun g => decide (g.winner_name = some n)) := by
    unfold dget
    rw [lookup_map_self]
    simp [hn]
  have hc : dget (get_name_game_count_dict games) n
      = games.countP (fun g => g.names.contains n) := by
    unfold dget
    rw [name_count_lookup]
    simp [hn]
  rw [hw, hc]

/-- Closed form of the faction win-rate map when every game has a winner. -/
theorem rate_faction_eq (games : List Game) (ws : List String)
    (h : games.mapM Game.winner_faction = some ws) :
    get_relative_faction_win_count_dict games
      = some ((get_factions games).map
          (fun c => (c,
            ((games.countP (fun g => decide (g.winner_faction = some c)) : ℚ)
              / (games.countP (fun g => g.factions.contains c) : ℚ))))) := by
  unfold get_relative_faction_win_count_dict
  rw [faction_win_dict_eq games ws h]
  refine congrArg some (List.map_congr_left (fun c hc' => ?_))
  have hw : dget ((get_factions games).map
      (fun m => (m, games.countP (fun g => decide (g.winner_faction = some m))))) c
      = games.countP (fun g => decide (g.winner_faction = some c)) := by
    unfold dget
    rw [lookup_map_self]
    simp [hc']
  have hc : dget (get_faction_game_count_dict games) c
      = games.countP (fun g => g.factions.contains c) := by
    unfold dget
    rw [faction_count_lookup]
    simp [hc']
  rw [hw, hc]

/-- `find?` returns the head of the filtered list. -/
theorem find?_of_filter_cons {α : Type} (p : α → Bool) :
    ∀ (l : List α) (a : α) (t : List α),
      l.filter p = a :: t → l.find? p = some a := by
  intro l
  induction l with
  | nil => intro a t h; simp at h
  | cons b l ih =>
      intro a t h
      cases hpb : p b with
      | true =>
          rw [List.filter_cons, if_pos hpb] at h
          rw [List.find?_cons_of_pos _ hpb]
          exact congrArg some (List.cons.inj h).1
      | false =>
          rw [List.filter_cons, if_neg (by simp [hpb])] at h
          rw [List.find?_cons_of_neg _ (by simp [hpb])]
          exact ih a t h

/-! ### Example data (used by witnesses and concrete scenarios) -/

/-- Two games: Agrim/Cats beats Munira/Birds, then Munira/Birds beats
Agrim/Cats (the worked scenario of the spec). -/
def exGames : List Game :=
  [⟨0, [⟨"Agrim", "Cats", true⟩, ⟨"Munira", "Birds", false⟩]⟩,
   ⟨1, [⟨"Agrim", "Cats", false⟩, ⟨"Munira", "Birds", true⟩]⟩]

/-- A game in which nobody is flagged as winner. -/
def exNoWinner : Game :=
  ⟨2, [⟨"Tobi", "Cats", false⟩, ⟨"Alina", "Birds", false⟩]⟩

/-- A game in which two players are flagged as winner. -/
def exTwoWinners : Game :=
  ⟨3, [⟨"Maxi", "Duchy", false⟩, ⟨"Wissal", "Crows", true⟩,
       ⟨"Georgios", "Lizards", true⟩]⟩

/-- Games whose players use factions Cats, Birds, Cats. -/
def exCatsBirdsCats : List Game :=
  [⟨4, [⟨"Agrim", "Cats", true⟩, ⟨"Munira", "Birds", false⟩]⟩,
   ⟨5, [⟨"Tobi", "Cats", true⟩]⟩]

/-- A list mixing one well-formed game and one winnerless game. -/
def exMixed : List Game :=
  [⟨6, [⟨"Agrim", "Cats", true⟩, ⟨"Munira", "Birds", false⟩]⟩, exNoWinner]

/-! ### Claims -/

/-- C2: on a game in which no player has `is_winner = true`, the derived
accessors `winner`, `winner_name` and `winner_faction` all fail with the
missing-winner condition (`none`); none of them returns a default or an
arbitrary player. -/
theorem C2_missing_winner_fails (g : Game)
    (h : ∀ p ∈ g.players, p.is_winner = false) :
    g.winner = none ∧ g.winner_name = none ∧ g.winner_faction = none := by
  have hw : g.winner = none := by
    unfold Game.winner
    rw [List.find?_eq_none]
    intro p hp
    simp [h p hp]
  refine ⟨hw, ?_, ?_⟩
  · unfold Game.winner_name; rw [hw]; rfl
  · unfold Game.winner_faction; rw [hw]; rfl

theorem C2_missing_winner_fails_witness :
    exNoWinner.players.all (fun p => !p.is_winner) = true
    ∧ (exNoWinner.winner = none ∧ exNoWinner.winner_name = none
        ∧ exNoWinner.winner_faction = none) :=
  ⟨by decide, C2_missing_winner_fails exNoWinner (by decide)⟩

/-- C6: on a game with more than one winner-flagged player, `winner`
returns the first winner-flagged player in player order (the head of the
filtered winner list), without raising an error, and `winner_name` /
`winner_faction` project it. -/
theorem C6_first_of_multiple_winners (g : Game) (p q : Player)
    (t : List Player)
    (h : g.players.filter (fun x => x.is_winner) = p :: q :: t) :
    g.winner = some p ∧ g.winner_name = some p.name
      ∧ g.winner_faction = some p.faction := by
  have hw : g.winner = some p := find?_of_filter_cons _ g.players p (q :: t) h
  refine ⟨hw, ?_, ?_⟩
  · unfold Game.winner_name; rw [hw]; rfl
  · unfold Game.winner_faction; rw [hw]; rfl

theorem C6_first_of_multiple_winners_witness :
    (exTwoWinners.players.filter (fun x => x.is_winner)
        = [⟨"Wissal", "Crows", true⟩, ⟨"Georgios", "Lizards", true⟩])
    ∧ (exTwoWinners.winner = some ⟨"Wissal", "Crows", true⟩
        ∧ exTwoWinners.winner_name = some "Wissal"
        ∧ exTwoWinners.winner_faction = some "Crows") :=
  ⟨by decide,
    C6_first_of_multiple_winners exTwoWinners ⟨"Wissal", "Crows", true⟩
      ⟨"Georgios", "Lizards", true⟩ [] (by decide)⟩

/-- C9: on the empty game list every aggregation succeeds and returns an
empty result; in particular both win-rate maps return the empty mapping
rather than failing on their division. -/
theorem C9_empty_list_all_empty :
    get_names [] = [] ∧ get_factions [] = []
    ∧ get_name_game_count_dict [] = []
    ∧ get_faction_game_count_dict [] = []
    ∧ get_name_win_count_dict [] = some []
    ∧ get_faction_win_count_dict [] = some []
    ∧ get_relative_name_win_count_dict [] = some []
    ∧ get_relative_faction_win_count_dict [] = some [] :=
  ⟨rfl, rfl, rfl, rfl, rfl, rfl, rfl, rfl⟩

/-- C8: `get_names` and `get_factions` list each occurring value exactly
once (no duplicates, and membership is exactly occurrence in some player
slot); over the games whose players use factions Cats, Birds, Cats the
resulting faction set is exactly \x7bCats, Birds\x7d of size 2. -/
theorem C8_distinct_values (games : List Game) :
    (get_names games).Nodup ∧ (get_factions games).Nodup
    ∧ (∀ x, x ∈ get_names games ↔ ∃ g ∈ games, ∃ p ∈ g.players, p.name = x)
    ∧ (∀ x, x ∈ get_factions games
        ↔ ∃ g ∈ games, ∃ p ∈ g.players, p.faction = x)
    ∧ ((get_factions exCatsBirdsCats).length = 2
        ∧ ∀ x, x ∈ get_factions exCatsBirdsCats
            ↔ (x = "Cats" ∨ x = "Birds")) := by
  refine ⟨List.nodup_dedup _, List.nodup_dedup _,
    mem_get_names games, mem_get_factions games, ?_, ?_⟩
  · rfl
  · intro x
    have hfac : get_factions exCatsBirdsCats = ["Birds", "Cats"] := by decide
    rw [hfac]
    simp [or_comm]

/-- C3: every entry of the name game-count dictionary equals the direct
recount of games containing that name in any player slot, and the
analogous statement holds for the faction game-count dictionary. -/
theorem C3_game_counts_are_recounts (games : List Game) :
    (∀ k c, (get_name_game_count_dict games).lookup k = some c →
        c = games.countP (fun g => decide (∃ p ∈ g.players, p.name = k)))
    ∧ (∀ k c, (get_faction_game_count_dict games).lookup k = some c →
        c = games.countP (fun g => decide (∃ p ∈ g.players, p.faction = k))) := by
  constructor
  · intro k c hc
    rw [name_count_lookup] at hc
    by_cases hk : k ∈ get_names games
    · rw [if_pos hk] at hc
      have hc' : c = games.countP (fun g => g.names.contains k) :=
        (Option.some.inj hc).symm
      rw [hc']
      refine List.countP_congr (fun g _ => ?_)
      rw [contains_names_iff, decide_eq_true_eq]
    · rw [if_neg hk] at hc
      cases hc
  · intro k c hc
    rw [faction_count_lookup] at hc
    by_cases hk : k ∈ get_factions games
    · rw [if_pos hk] at hc
      have hc' : c = games.countP (fun g => g.factions.contains k) :=
        (Option.some.inj hc).symm
      rw [hc']
      refine List.countP_congr (fun g _ => ?_)
      rw [contains_factions_iff, decide_eq_true_eq]
    · rw [if_neg hk] at hc
      cases hc

theorem C3_game_counts_are_recounts_witness :
    (get_name_game_count_dict exGames).lookup "Agrim" = some 2
    ∧ 2 = exGames.countP (fun g => decide (∃ p ∈ g.players, p.name = "Agrim")) :=
  ⟨by decide, (C3_game_counts_are_recounts exGames).1 "Agrim" 2 (by decide)⟩

/-- C4: whenever the name win-count dictionary is defined, each name's win
count never exceeds its game count. -/
theorem C4_wins_le_games (games : List Game) (k : String)
    (wd : List (String × Nat)) (w c : Nat)
    (hwd : get_name_win_count_dict games = some wd)
    (hw : wd.lookup k = some w)
    (hc : (get_name_game_count_dict games).lookup k = some c) :
    w ≤ c := by
  cases hmw : games.mapM Game.winner_name with
  | none =>
      cases hnames : get_names games with
      | nil =>
          unfold get_name_win_count_dict at hwd
          rw [hnames, List.mapM_nil] at hwd
          have hwnil : wd = [] := (Option.some.inj hwd).symm
          rw [hwnil] at hw
          simp at hw
      | cons n rest =>
          exfalso
          have hnone := (name_win_dict_none_iff games).mpr
            ⟨by rw [hnames]; simp, hmw⟩
          rw [hnone] at hwd
          cases hwd
  | some ws =>
      rw [name_win_dict_eq games ws hmw] at hwd
      have hwd' := Option.some.inj hwd
      subst hwd'
      rw [lookup_map_self] at hw
      by_cases hk : k ∈ get_names games
      · rw [if_pos hk] at hw
        have hwval := Option.some.inj hw
        rw [name_count_lookup, if_pos hk] at hc
        have hcval := Option.some.inj hc
        rw [← hwval, ← hcval]
        exact wins_le_games_name games k
      · rw [if_neg hk] at hw
        cases hw

theorem C4_wins_le_games_witness :
    (get_name_win_count_dict exGames = some [("Agrim", 1), ("Munira", 1)]
      ∧ [("Agrim", 1), ("Munira", 1)].lookup "Agrim" = some 1
      ∧ (get_name_game_count_dict exGames).lookup "Agrim" = some 2)
    ∧ 1 ≤ 2 :=
  ⟨⟨by decide, by decide, by decide⟩,
    C4_wins_le_games exGames "Agrim" [("Agrim", 1), ("Munira", 1)] 1 2
      (by decide) (by decide) (by decide)⟩

/-- C1: whenever the win-rate maps are defined (and each key's game count
is the nonzero count derived from the same game list), each name's rate
entry equals its win count divided by its game count, exactly, and lies
in the closed interval from 0 to 1; the analogous equation holds for the
faction win-rate map. -/
theorem C1_win_rate_exact_and_bounded (games : List Game) :
    (∀ rd wd k w c,
        get_relative_name_win_count_dict games = some rd →
        get_name_win_count_dict games = some wd →
        wd.lookup k = some w →
        (get_name_game_count_dict games).lookup k = some c →
        rd.lookup k = some ((w : ℚ) / (c : ℚ))
          ∧ 0 ≤ (w : ℚ) / (c : ℚ) ∧ (w : ℚ) / (c : ℚ) ≤ 1)
    ∧ (∀ rd wd k w c,
        get_relative_faction_win_count_dict games = some rd →
        get_faction_win_count_dict games = some wd →
        wd.lookup k = some w →
        (get_faction_game_count_dict games).lookup k = some c →
        rd.lookup k = some ((w : ℚ) / (c : ℚ))
          ∧ 0 ≤ (w : ℚ) / (c : ℚ) ∧ (w : ℚ) / (c : ℚ) ≤ 1) := by
  constructor
  · intro rd wd k w c hrd hwd hw hc
    cases hmw : games.mapM Game.winner_name with
    | none =>
        cases hnames : get_names games with
        | nil =>
            unfold get_name_win_count_dict at hwd
            rw [hnames, List.mapM_nil] at hwd
            have hwnil : wd = [] := (Option.some.inj hwd).symm
            rw [hwnil] at hw
            simp at hw
        | cons n rest =>
            exfalso
            have hnone := (name_win_dict_none_iff games).mpr
              ⟨by rw [hnames]; simp, hmw⟩
            rw [hnone] at hwd
            cases hwd
    | some ws =>
        rw [name_win_dict_eq games ws hmw] at hwd
        have hwdval := Option.some.inj hwd
        rw [← hwdval, lookup_map_self] at hw
        by_cases hk : k ∈ get_names games
        · rw [if_pos hk] at hw
          have hwval := Option.some.inj hw
          rw [name_count_lookup, if_pos hk] at hc
          have hcval := Option.some.inj hc
          rw [rate_name_eq games ws hmw] at hrd
          have hrdval := Option.some.inj hrd
          have hcpos : (0 : ℚ) < (c : ℚ) := by
            rw [← hcval]
            exact_mod_cast name_count_pos games k hk
          have hwc : w ≤ c := by
            rw [← hwval, ← hcval]
            exact wins_le_games_name games k
          refine ⟨?_, div_nonneg (Nat.cast_nonneg w) (Nat.cast_nonneg c),
            (div_le_one hcpos).mpr (Nat.cast_le.mpr hwc)⟩
          rw [← hrdval, lookup_map_self, if_pos hk, hwval, hcval]
        · rw [if_neg hk] at hw
          cases hw
  · intro rd wd k w c hrd hwd hw hc
    cases hmw : games.mapM Game.winner_faction with
    | none =>
        cases hfacs : get_factions games with
        | nil =>
            unfold get_faction_win_count_dict at hwd
            rw [hfacs, List.mapM_nil] at hwd
            have hwnil : wd = [] := (Option.some.inj hwd).symm
            rw [hwnil] at hw
            simp at hw
        | cons n rest =>
            exfalso
            have hnone := (faction_win_dict_none_iff games).mpr
              ⟨by rw [hfacs]; simp, hmw⟩
            rw [hnone] at hwd
            cases hwd
    | some ws =>
        rw [faction_win_dict_eq games ws hmw] at hwd
        have hwdval := Option.some.inj hwd
        rw [← hwdval, lookup_map_self] at hw
        by_cases hk : k ∈ get_factions games
        · rw [if_pos hk] at hw
          have hwval := Option.some.inj hw
          rw [faction_count_lookup, if_pos hk] at hc
          have hcval := Option.some.inj hc
          rw [rate_faction_eq games ws hmw] at hrd
          have hrdval := Option.some.inj hrd
          have hcpos : (0 : ℚ) < (c : ℚ) := by
            rw [← hcval]
            exact_mod_cast faction_count_pos games k hk
          have hwc : w ≤ c := by
            rw [← hwval, ← hcval]
            exact wins_le_games_faction games k
          refine ⟨?_, div_nonneg (Nat.cast_nonneg w) (Nat.cast_nonneg c),
            (div_le_one hcpos).mpr (Nat.cast_le.mpr hwc)⟩
          rw [← hrdval, lookup_map_self, if_pos hk, hwval, hcval]
        · rw [if_neg hk] at hw
          cases hw

theorem C1_win_rate_exact_and_bounded_witness :
    (get_relative_name_win_count_dict exGames
        = some [("Agrim", ((1 : Nat) : ℚ) / ((2 : Nat) : ℚ)),
                ("Munira", ((1 : Nat) : ℚ) / ((2 : Nat) : ℚ))]
      ∧ get_name_win_count_dict exGames = some [("Agrim", 1), ("Munira", 1)]
      ∧ ([("Agrim", 1), ("Munira", 1)] : List (String × Nat)).lookup "Agrim"
          = some 1
      ∧ (get_name_game_count_dict exGames).lookup "Agrim" = some 2)
    ∧ ([("Agrim", ((1 : Nat) : ℚ) / ((2 : Nat) : ℚ)),
        ("Munira", ((1 : Nat) : ℚ) / ((2 : Nat) : ℚ))].lookup "Agrim"
          = some (((1 : Nat) : ℚ) / ((2 : Nat) : ℚ))
        ∧ 0 ≤ ((1 : Nat) : ℚ) / ((2 : Nat) : ℚ)
        ∧ ((1 : Nat) : ℚ) / ((2 : Nat) : ℚ) ≤ 1) :=
  ⟨⟨by rfl, by decide, by decide, by decide⟩,
    (C1_win_rate_exact_and_bounded exGames).1
      [("Agrim", ((1 : Nat) : ℚ) / ((2 : Nat) : ℚ)),
       ("Munira", ((1 : Nat) : ℚ) / ((2 : Nat) : ℚ))]
      [("Agrim", 1), ("Munira", 1)] "Agrim" 1 2
      (by rfl) (by decide) (by decide) (by decide)⟩

/-- Keys of an association list built by a comprehension over `keys`. -/
theorem map_fst_pairs {β : Type} (keys : List String) (f : String → β) :
    (keys.map (fun a => (a, f a))).map Prod.fst = keys := by
  induction keys with
  | nil => rfl
  | cons a r ih => simp [ih]

/-- C10: if any game of the list has no winner-flagged player, then
`get_num_wins` fails for every queried name, and — as soon as there is at
least one player overall — the win-count map and the win-rate map fail
wholesale as well, with no partial result. -/
theorem C10_winnerless_game_poisons_counts (games : List Game) (g : Game)
    (hg : g ∈ games) (hnw : ∀ p ∈ g.players, p.is_winner = false) :
    (∀ name, get_num_wins games name = none)
    ∧ (get_names games ≠ [] →
        get_name_win_count_dict games = none
        ∧ get_relative_name_win_count_dict games = none) := by
  have hwn : g.winner_name = none := by
    unfold Game.winner_name Game.winner
    rw [List.find?_eq_none.mpr (fun p hp => by simp [hnw p hp])]
    rfl
  have hmw : games.mapM Game.winner_name = none :=
    (mapM_option_eq_none _ games).mpr ⟨g, hg, hwn⟩
  refine ⟨fun name => ?_, fun hne => ?_⟩
  · unfold get_num_wins
    rw [hmw]
    rfl
  · have hdict := (name_win_dict_none_iff games).mpr ⟨hne, hmw⟩
    exact ⟨hdict, (rate_name_none_iff games).mpr hdict⟩

theorem C10_winnerless_game_poisons_counts_witness :
    (exNoWinner ∈ exMixed
      ∧ exNoWinner.players.all (fun p => !p.is_winner) = true
      ∧ get_names exMixed ≠ [])
    ∧ (get_num_wins exMixed "Agrim" = none
      ∧ get_name_win_count_dict exMixed = none
      ∧ get_relative_name_win_count_dict exMixed = none) :=
  ⟨⟨by decide, by decide, by decide⟩,
   ⟨(C10_winnerless_game_poisons_counts exMixed exNoWinner (by decide)
        (by decide)).1 "Agrim",
    ((C10_winnerless_game_poisons_counts exMixed exNoWinner (by decide)
        (by decide)).2 (by decide)).1,
    ((C10_winnerless_game_poisons_counts exMixed exNoWinner (by decide)
        (by decide)).2 (by decide)).2⟩⟩

/-- C7: the key list of every map-producing aggregation is exactly
`get_names games` (respectively `get_factions games`), and membership in
those lists is exactly occurrence in some player slot of some game of the
input list — never a fixed global roster. -/
theorem C7_key_sets_derived_from_input (games : List Game) :
    ((get_name_game_count_dict games).map Prod.fst = get_names games)
    ∧ ((get_faction_game_count_dict games).map Prod.fst = get_factions games)
    ∧ (∀ wd, get_name_win_count_dict games = some wd →
        wd.map Prod.fst = get_names games)
    ∧ (∀ wd, get_faction_win_count_dict games = some wd →
        wd.map Prod.fst = get_factions games)
    ∧ (∀ rd, get_relative_name_win_count_dict games = some rd →
        rd.map Prod.fst = get_names games)
    ∧ (∀ rd, get_relative_faction_win_count_dict games = some rd →
        rd.map Prod.fst = get_factions games)
    ∧ (∀ x, x ∈ get_names games ↔ ∃ g ∈ games, ∃ p ∈ g.players, p.name = x)
    ∧ (∀ x, x ∈ get_factions games
        ↔ ∃ g ∈ games, ∃ p ∈ g.players, p.faction = x) := by
  refine ⟨map_fst_pairs _ _, map_fst_pairs _ _, ?_, ?_, ?_, ?_,
    mem_get_names games, mem_get_factions games⟩
  · intro wd hwd
    by_cases hnil : get_names games = []
    · unfold get_name_win_count_dict at hwd
      rw [hnil, List.mapM_nil] at hwd
      rw [← Option.some.inj hwd, hnil]
      rfl
    · cases hmw : games.mapM Game.winner_name with
      | none =>
          exfalso
          rw [(name_win_dict_none_iff games).mpr ⟨hnil, hmw⟩] at hwd
          cases hwd
      | some ws =>
          rw [name_win_dict_eq games ws hmw] at hwd
          rw [← Option.some.inj hwd]
          exact map_fst_pairs _ _
  · intro wd hwd
    by_cases hnil : get_factions games = []
    · unfold get_faction_win_count_dict at hwd
      rw [hnil, List.mapM_nil] at hwd
      rw [← Option.some.inj hwd, hnil]
      rfl
    · cases hmw : games.mapM Game.winner_faction with
      | none =>
          exfalso
          rw [(faction_win_dict_none_iff games).mpr ⟨hnil, hmw⟩] at hwd
          cases hwd
      | some ws =>
          rw [faction_win_dict_eq games ws hmw] at hwd
          rw [← Option.some.inj hwd]
          exact map_fst_pairs _ _
  · intro rd hrd
    unfold get_relative_name_win_count_dict at hrd
    cases hwc : get_name_win_count_dict games with
    | none => rw [hwc] at hrd; simp at hrd
    | some wd =>
        rw [hwc] at hrd
        simp only at hrd
        rw [← Option.some.inj hrd]
        exact map_fst_pairs _ _
  · intro rd hrd
    unfold get_relative_faction_win_count_dict at hrd
    cases hwc : get_faction_win_count_dict games with
    | none => rw [hwc] at hrd; simp at hrd
    | some wd =>
        rw [hwc] at hrd
        simp only at hrd
        rw [← Option.some.inj hrd]
        exact map_fst_pairs _ _

theorem C7_key_sets_derived_from_input_witness :
    (get_name_win_count_dict exGames = some [("Agrim", 1), ("Munira", 1)]
      ∧ get_relative_name_win_count_dict exGames
          = some [("Agrim", ((1 : Nat) : ℚ) / ((2 : Nat) : ℚ)),
                  ("Munira", ((1 : Nat) : ℚ) / ((2 : Nat) : ℚ))])
    ∧ (([("Agrim", 1), ("Munira", 1)] : List (String × Nat)).map Prod.fst
          = get_names exGames
      ∧ ([("Agrim", ((1 : Nat) : ℚ) / ((2 : Nat) : ℚ)),
          ("Munira", ((1 : Nat) : ℚ) / ((2 : Nat) : ℚ))]).map Prod.fst
          = get_names exGames) :=
  ⟨⟨by decide, by rfl⟩,
   ⟨(C7_key_sets_derived_from_input exGames).2.2.1
      [("Agrim", 1), ("Munira", 1)] (by decide),
    (C7_key_sets_derived_from_input exGames).2.2.2.2.1
      [("Agrim", ((1 : Nat) : ℚ) / ((2 : Nat) : ℚ)),
       ("Munira", ((1 : Nat) : ℚ) / ((2 : Nat) : ℚ))] (by rfl)⟩⟩

/-- Observable content of the name win-count map, as a single closed form
(failure condition plus per-key lookup). -/
theorem name_win_dict_map_lookup (games : List Game) (k : String) :
    (get_name_win_count_dict games).map (fun d => d.lookup k)
      = if games.mapM Game.winner_name = none ∧ get_names games ≠ [] then none
        else some (if k ∈ get_names games
          then some (games.countP (fun g => decide (g.winner_name = some k)))
          else none) := by
  cases hmw : games.mapM Game.winner_name with
  | some ws =>
      rw [if_neg (by simp [hmw])]
      rw [name_win_dict_eq games ws hmw]
      simp only [Option.map_some']
      rw [lookup_map_self]
  | none =>
      cases hnames : get_names games with
      | nil =>
          rw [if_neg (by simp [hnames])]
          unfold get_name_win_count_dict
          rw [hnames, List.mapM_nil]
          simp
      | cons n rest =>
          rw [if_pos ⟨rfl, by simp⟩]
          rw [(name_win_dict_none_iff games).mpr ⟨by rw [hnames]; simp, hmw⟩]
          rfl

/-- Observable content of the faction win-count map. -/
theorem faction_win_dict_map_lookup (games : List Game) (k : String) :
    (get_faction_win_count_dict games).map (fun d => d.lookup k)
      = if games.mapM Game.winner_faction = none ∧ get_factions games ≠ []
        then none
        else some (if k ∈ get_factions games
          then some (games.countP (fun g => decide (g.winner_faction = some k)))
          else none) := by
  cases hmw : games.mapM Game.winner_faction with
  | some ws =>
      rw [if_neg (by simp [hmw])]
      rw [faction_win_dict_eq games ws hmw]
      simp only [Option.map_some']
      rw [lookup_map_self]
  | none =>
      cases hfacs : get_factions games with
      | nil =>
          rw [if_neg (by simp [hfacs])]
          unfold get_faction_win_count_dict
          rw [hfacs, List.mapM_nil]
          simp
      | cons n rest =>
          rw [if_pos ⟨rfl, by simp⟩]
          rw [(faction_win_dict_none_iff games).mpr ⟨by rw [hfacs]; simp, hmw⟩]
          rfl

/-- Observable content of the name win-rate map. -/
theorem rate_name_map_lookup (games : List Game) (k : String) :
    (get_relative_name_win_count_dict games).map (fun d => d.lookup k)
      = if games.mapM Game.winner_name = none ∧ get_names games ≠ [] then none
        else some (if k ∈ get_names games
          then some
            ((games.countP (fun g => decide (g.winner_name = some k)) : ℚ)
              / (games.countP (fun g => g.names.contains k) : ℚ))
          else none) := by
  cases hmw : games.mapM Game.winner_name with
  | some ws =>
      rw [if_neg (by simp [hmw])]
      rw [rate_name_eq games ws hmw]
      simp only [Option.map_some']
      rw [lookup_map_self]
  | none =>
      cases hnames : get_names games with
      | nil =>
          rw [if_neg (by simp [hnames])]
          have hwd : get_name_win_count_dict games = some [] := by
            unfold get_name_win_count_dict
            rw [hnames, List.mapM_nil]
            rfl
          unfold get_relative_name_win_count_dict
          rw [hwd, hnames]
          simp
      | cons n rest =>
          rw [if_pos ⟨rfl, by simp⟩]
          rw [(rate_name_none_iff games).mpr
            ((name_win_dict_none_iff games).mpr ⟨by rw [hnames]; simp, hmw⟩)]
          rfl

/-- Observable content of the faction win-rate map. -/
theorem rate_faction_map_lookup (games : List Game) (k : String) :
    (get_relative_faction_win_count_dict games).map (fun d => d.lookup k)
      = if games.mapM Game.winner_faction = none ∧ get_factions games ≠ []
        then none
        else some (if k ∈ get_factions games
          then some
            ((games.countP (fun g => decide (g.winner_faction = some k)) : ℚ)
              / (games.countP (fun g => g.factions.contains k) : ℚ))
          else none) := by
  cases hmw : games.mapM Game.winner_faction with
  | some ws =>
      rw [if_neg (by simp [hmw])]
      rw [rate_faction_eq games ws hmw]
      simp only [Option.map_some']
      rw [lookup_map_self]
  | none =>
      cases hfacs : get_factions games with
      | nil =>
          rw [if_neg (by simp [hfacs])]
          have hwd : get_faction_win_count_dict games = some [] := by
            unfold get_faction_win_count_dict
            rw [hfacs, List.mapM_nil]
            rfl
          unfold get_relative_faction_win_count_dict
          rw [hwd, hfacs]
          simp
      | cons n rest =>
          rw [if_pos ⟨rfl, by simp⟩]
          rw [(rate_faction_none_iff games).mpr
            ((faction_win_dict_none_iff games).mpr ⟨by rw [hfacs]; simp, hmw⟩)]
          rfl

/-- `exGames` in the opposite order. -/
def exGamesRev : List Game :=
  [⟨1, [⟨"Agrim", "Cats", false⟩, ⟨"Munira", "Birds", true⟩]⟩,
   ⟨0, [⟨"Agrim", "Cats", true⟩, ⟨"Munira", "Birds", false⟩]⟩]

/-- C5: aggregation is order-independent: for permuted game lists, the
distinct name/faction lists agree as sets, and every map-producing
aggregation (game counts, win counts, win rates, including their
failure behaviour) gives the same lookup result on every key. -/
theorem C5_order_independence (games games' : List Game)
    (hp : games.Perm games') :
    (∀ x, x ∈ get_names games ↔ x ∈ get_names games')
    ∧ (∀ x, x ∈ get_factions games ↔ x ∈ get_factions games')
    ∧ (∀ k, (get_name_game_count_dict games).lookup k
          = (get_name_game_count_dict games').lookup k)
    ∧ (∀ k, (get_faction_game_count_dict games).lookup k
          = (get_faction_game_count_dict games').lookup k)
    ∧ (∀ k, (get_name_win_count_dict games).map (fun d => d.lookup k)
          = (get_name_win_count_dict games').map (fun d => d.lookup k))
    ∧ (∀ k, (get_faction_win_count_dict games).map (fun d => d.lookup k)
          = (get_faction_win_count_dict games').map (fun d => d.lookup k))
    ∧ (∀ k, (get_relative_name_win_count_dict games).map (fun d => d.lookup k)
          = (get_relative_name_win_count_dict games').map (fun d => d.lookup k))
    ∧ (∀ k,
        (get_relative_faction_win_count_dict games).map (fun d => d.lookup k)
          = (get_relative_faction_win_count_dict games').map
              (fun d => d.lookup k)) := by
  have hmem : ∀ g : Game, g ∈ games ↔ g ∈ games' := fun _ => hp.mem_iff
  have hnm : ∀ x, x ∈ get_names games ↔ x ∈ get_names games' := by
    intro x
    rw [mem_get_names, mem_get_names]
    constructor
    · rintro ⟨g, hg, hr⟩; exact ⟨g, (hmem g).mp hg, hr⟩
    · rintro ⟨g, hg, hr⟩; exact ⟨g, (hmem g).mpr hg, hr⟩
  have hfm : ∀ x, x ∈ get_factions games ↔ x ∈ get_factions games' := by
    intro x
    rw [mem_get_factions, mem_get_factions]
    constructor
    · rintro ⟨g, hg, hr⟩; exact ⟨g, (hmem g).mp hg, hr⟩
    · rintro ⟨g, hg, hr⟩; exact ⟨g, (hmem g).mpr hg, hr⟩
  have hniln : (get_names games = []) ↔ (get_names games' = []) := by
    rw [List.eq_nil_iff_forall_not_mem, List.eq_nil_iff_forall_not_mem]
    constructor
    · intro h x hx; exact h x ((hnm x).mpr hx)
    · intro h x hx; exact h x ((hnm x).mp hx)
  have hnilf : (get_factions games = []) ↔ (get_factions games' = []) := by
    rw [List.eq_nil_iff_forall_not_mem, List.eq_nil_iff_forall_not_mem]
    constructor
    · intro h x hx; exact h x ((hfm x).mpr hx)
    · intro h x hx; exact h x ((hfm x).mp hx)
  have hmwn : (games.mapM Game.winner_name = none)
      ↔ (games'.mapM Game.winner_name = none) := by
    rw [mapM_option_eq_none, mapM_option_eq_none]
    constructor
    · rintro ⟨g, hg, h⟩; exact ⟨g, (hmem g).mp hg, h⟩
    · rintro ⟨g, hg, h⟩; exact ⟨g, (hmem g).mpr hg, h⟩
  have hmwf : (games.mapM Game.winner_faction = none)
      ↔ (games'.mapM Game.winner_faction = none) := by
    rw [mapM_option_eq_none, mapM_option_eq_none]
    constructor
    · rintro ⟨g, hg, h⟩; exact ⟨g, (hmem g).mp hg, h⟩
    · rintro ⟨g, hg, h⟩; exact ⟨g, (hmem g).mpr hg, h⟩
  refine ⟨hnm, hfm, ?_, ?_, ?_, ?_, ?_, ?_⟩
  · intro k
    rw [name_count_lookup, name_count_lookup,
      List.Perm.countP_eq (fun g => g.names.contains k) hp]
    exact if_congr (hnm k) rfl rfl
  · intro k
    rw [faction_count_lookup, faction_count_lookup,
      List.Perm.countP_eq (fun g => g.factions.contains k) hp]
    exact if_congr (hfm k) rfl rfl
  · intro k
    rw [name_win_dict_map_lookup, name_win_dict_map_lookup]
    exact if_congr (and_congr hmwn (not_congr hniln)) rfl
      (congrArg some (if_congr (hnm k)
        (congrArg some
          (List.Perm.countP_eq (fun g => decide (g.winner_name = some k)) hp))
        rfl))
  · intro k
    rw [faction_win_dict_map_lookup, faction_win_dict_map_lookup]
    exact if_congr (and_congr hmwf (not_congr hnilf)) rfl
      (congrArg some (if_congr (hfm k)
        (congrArg some
          (List.Perm.countP_eq
            (fun g => decide (g.winner_faction = some k)) hp))
        rfl))
  · intro k
    rw [rate_name_map_lookup, rate_name_map_lookup]
    refine if_congr (and_congr hmwn (not_congr hniln)) rfl
      (congrArg some (if_congr (hnm k) (congrArg some ?_) rfl))
    rw [List.Perm.countP_eq (fun g => decide (g.winner_name = some k)) hp,
      List.Perm.countP_eq (fun g => g.names.contains k) hp]
  · intro k
    rw [rate_faction_map_lookup, rate_faction_map_lookup]
    refine if_congr (and_congr hmwf (not_congr hnilf)) rfl
      (congrArg some (if_congr (hfm k) (congrArg some ?_) rfl))
    rw [List.Perm.countP_eq (fun g => decide (g.winner_faction = some k)) hp,
      List.Perm.countP_eq (fun g => g.factions.contains k) hp]

theorem C5_order_independence_witness :
    exGames.Perm exGamesRev
    ∧ ("Agrim" ∈ get_names exGames ↔ "Agrim" ∈ get_names exGamesRev)
    ∧ ((get_name_game_count_dict exGames).lookup "Agrim"
        = (get_name_game_count_dict exGamesRev).lookup "Agrim")
    ∧ ((get_relative_name_win_count_dict exGames).map (fun d => d.lookup "Agrim")
        = (get_relative_name_win_count_dict exGamesRev).map
            (fun d => d.lookup "Agrim")) :=
  have hp : exGames.Perm exGamesRev := by
    unfold exGames exGamesRev
    exact List.Perm.swap _ _ []
  ⟨hp,
   (C5_order_independence exGames exGamesRev hp).1 "Agrim",
   (C5_order_independence exGames exGamesRev hp).2.2.1 "Agrim",
   (C5_order_independence exGames exGamesRev hp).2.2.2.2.2.2.1 "Agrim"⟩
